import Mathlib

/-!
Verification of the `gittle` working-tree client (`src/gittle/gittle.py`)
against its natural-language specification.

The repository handle's mutable environment — working tree, persisted staging
index, HEAD, origin URI, authenticator, ignore predicate — is embedded as an
explicit state (`GState`).  Python dictionaries (the dulwich index `_byname`
mapping and the working tree viewed as path → mtime) are embedded as
association lists with dictionary-shaped operations (`alookup`, `aerase`,
`ainsert`).  Fallible code (head lookup on a commit-less repository, `os.stat`
and `os.rename` failures, Python `TypeError` on an unknown keyword argument)
returns `Except GitError`.
-/

namespace Gittle

/-- Errors surfaced by the embedded operations.  `noCommitsYet` is the spec's
NoCommitsYet condition (the head lookup failing on a repository with no
commits); `osError` is a propagated filesystem stat/rename failure;
`typeError` is Python's rejection of a call with an unknown keyword. -/
inductive GitError
  | noCommitsYet
  | osError
  | invalidRemoteUrl
  | keyError
  | typeError (kw : String)
deriving DecidableEq, Repr

instance {ε α : Type} [DecidableEq ε] [DecidableEq α] : DecidableEq (Except ε α) :=
  fun a b =>
    match a, b with
    | .ok x, .ok y =>
      if h : x = y then .isTrue (by rw [h]) else .isFalse (by simp [h])
    | .error x, .error y =>
      if h : x = y then .isTrue (by rw [h]) else .isFalse (by simp [h])
    | .ok _, .error _ => .isFalse (by simp)
    | .error _, .ok _ => .isFalse (by simp)

/-- Dictionary lookup on an association list (first match). -/
def alookup {α : Type} : List (String × α) → String → Option α
  | [], _ => none
  | kv :: rest, p => if kv.1 = p then some kv.2 else alookup rest p

/-- Dictionary deletion: removes every binding of the key. -/
def aerase {α : Type} : List (String × α) → String → List (String × α)
  | [], _ => []
  | kv :: rest, p => if kv.1 = p then aerase rest p else kv :: aerase rest p

/-- Dictionary assignment `d[p] = v`. -/
def ainsert {α : Type} (l : List (String × α)) (p : String) (v : α) :
    List (String × α) :=
  aerase l p ++ [(p, v)]

/-- The key set of an association list. -/
def akeys {α : Type} (l : List (String × α)) : Finset String :=
  (l.map Prod.fst).toFinset

/-- A staging-index entry: models the dulwich index tuple; `mtimeSec` is
`entry[1][0]`, the seconds part of the modification time recorded at staging
time, the only component the classifier reads. -/
structure IndexEntry where
  mtimeSec : Int
deriving DecidableEq, Repr

/-- The staging index: the dulwich `Index._byname` dictionary from
repo-relative path to entry. -/
abbrev Index := List (String × IndexEntry)

/-- The working tree: repo-relative path → stat modification time
(`os.stat(...).st_mtime`), for the regular files under the repository root. -/
abbrev Fs := List (String × Int)

/-- The repository handle's environment: working tree, persisted staging
index, HEAD (`none` when no commits exist), the object store's commit-time
lookup, the bound origin URI, the authenticator's keyword arguments, and the
compiled ignore predicate. -/
structure GState where
  fs : Fs
  persistedIndex : Index
  head : Option String
  commitTime : String → Int
  originUri : Option String
  authKwargs : List (String × String)
  ignore : String → Bool

/-- The `index` property: every access reopens the staging index from its
persisted on-disk form (`self.repo.open_index()`), yielding a fresh snapshot
value. -/
def openIndex (st : GState) : Index :=
  st.persistedIndex

/-- `Index.write()` called on a snapshot: persists exactly that snapshot. -/
def writeIndex (st : GState) (idx : Index) : GState :=
  { st with persistedIndex := idx }

/-- The `last_commit` property, `self.repo[self.repo.head()]`: the head
lookup on a repository with no commits fails — the spec's NoCommitsYet
condition.  Only the commit's `commit_time` is consumed by the classifier, so
the embedding returns that timestamp. -/
def last_commit (st : GState) : Except GitError Int :=
  match st.head with
  | none => .error .noCommitsYet
  | some sha => .ok (st.commitTime sha)

/-- `tracked_files`: `set(self.index._byname.keys())`. -/
def tracked_files (st : GState) : Finset String :=
  akeys (openIndex st)

/-- Modelled from the spec: `utils.subpaths(self.path)` (the `utils` module is
not under src/) — the working-tree scanner returning every regular file under
the root as a repo-relative path (spec §4.2); `raw_files` converts it to a
set. -/
def raw_files (st : GState) : Finset String :=
  akeys st.fs

/-- Modelled from the spec: `utils.subpaths(self.path, filters=self.filters)`
(the `utils` module is not under src/) — the scan restricted to the paths the
compiled ignore predicate matches (spec §4.1: the predicate returns true for
paths to be excluded from trackable status). -/
def ignored_files (st : GState) : Finset String :=
  ((st.fs.map Prod.fst).filter st.ignore).toFinset

/-- `trackable_files`: `self.raw_files - self.ignored_files`. -/
def trackable_files (st : GState) : Finset String :=
  raw_files st \ ignored_files st

/-- `untracked_files`: `self.trackable_files - self.tracked_files`. -/
def untracked_files (st : GState) : Finset String :=
  trackable_files st \ tracked_files st

/-- The comparison `index[f][1][0] > timestamp` performed by
`modified_staged_files` for a tracked path `f`. -/
def entryNewer (idx : Index) (timestamp : Int) (f : String) : Bool :=
  match alookup idx f with
  | some e => decide (e.mtimeSec > timestamp)
  | none => false

/-- `modified_staged_files`: the tracked files whose index entry time is
strictly greater than the last commit's `commit_time`; the head lookup's
failure propagates. -/
def modified_staged_files (st : GState) : Except GitError (Finset String) := do
  let timestamp ← last_commit st
  let index := openIndex st
  pure ((tracked_files st).filter (fun f => entryNewer index timestamp f))

/-- The comparison `os.stat(self.abspath(f)).st_mtime > timestamp` for a path
present in the working tree. -/
def statNewer (fs : Fs) (timestamp : Int) (f : String) : Bool :=
  match alookup fs f with
  | some m => decide (m > timestamp)
  | none => false

/-- `modified_unstaged_files`: stats every tracked file and keeps those whose
mtime is strictly greater than the last commit's time.  `os.stat` on a path
missing from the working tree raises OSError, which propagates out of the
comprehension (the query fails as a whole). -/
def modified_unstaged_files (st : GState) : Except GitError (Finset String) := do
  let timestamp ← last_commit st
  if ∀ f ∈ tracked_files st, (alookup st.fs f).isSome = true then
    pure ((tracked_files st).filter (fun f => statNewer st.fs timestamp f))
  else
    throw .osError

/-- `modified_files`: `self.modified_staged_files | self.modified_unstaged_files`
(the staged query is evaluated first; either failure propagates). -/
def modified_files (st : GState) : Except GitError (Finset String) := do
  let s ← modified_staged_files st
  let u ← modified_unstaged_files st
  pure (s ∪ u)

/-- One iteration of the dulwich collaborator `Repo.stage` loop: `os.lstat`
the path — a missing path's entry is deleted from the index (`del
index[path]`, an absent key being ignored), a present path's entry is
(re)written from the file's stat information. -/
def stageStep (fs : Fs) (idx : Index) (path : String) : Index :=
  match alookup fs path with
  | none => aerase idx path
  | some m => ainsert idx path ⟨m⟩

/-- The dulwich collaborator `Repo.stage`, the body of `add`: opens the index,
runs `stageStep` over the batch, and writes the resulting index once at the
end. -/
def stage (st : GState) (paths : List String) : GState :=
  writeIndex st (paths.foldl (stageStep st.fs) (openIndex st))

/-- `add`: `self.repo.stage(files)`. -/
def add (st : GState) (files : List String) : GState :=
  stage st files

/-- `rm`: opens one snapshot and filters the batch to the paths present in it;
then `del self.index[f]` for each such path — the `index` property reopens a
fresh snapshot per access, so every deletion mutates a distinct, immediately
discarded snapshot — and finally `index.write()` persists the first snapshot,
which was never mutated. -/
def rm (st : GState) (files : List String) (_force : Bool := false) : GState :=
  let index := openIndex st
  let index_files := files.filter (fun f => (alookup index f).isSome)
  let _discarded := index_files.map (fun f => aerase (openIndex st) f)
  writeIndex st index

/-- An `Index` snapshot after `clear()`. -/
def idxClear (_idx : Index) : Index :=
  []

/-- `rm_all`: `self.index.clear()` clears one freshly opened snapshot (then
discards it), and `self.index.write()` writes another freshly opened
snapshot. -/
def rm_all (st : GState) : GState :=
  let _cleared := idxClear (openIndex st)
  writeIndex st (openIndex st)

/-- `mv_fs`: `os.rename(old_name, new_name)`.  The source passes the
repo-relative names, so the embedding takes the process working directory to
be the repository root; renaming a missing path raises OSError, and the
renamed file keeps its modification time. -/
def mv_fs (fs : Fs) (pair : String × String) : Except GitError Fs :=
  match alookup fs pair.1 with
  | none => .error .osError
  | some m => .ok (ainsert (aerase fs pair.1) pair.2 m)

/-- The filtering step of `mv`: `filter(lambda f: f[0] in index, files_pair)`
against one opened snapshot. -/
def files_in_index (st : GState) (files_pair : List (String × String)) :
    List (String × String) :=
  files_pair.filter (fun f => (alookup (openIndex st) f.1).isSome)

/-- `mv`: keeps the pairs whose old path is in the index, renames each on the
filesystem, then `self.add(new_files)`, `self.rm(old_files)`,
`self.add(old_files)` — the last call re-stages the old paths, which no
longer exist on disk, so the dulwich stage deletes their entries. -/
def mv (st : GState) (files_pair : List (String × String)) :
    Except GitError GState := do
  let pairs := files_in_index st files_pair
  let fs1 ← pairs.foldlM mv_fs st.fs
  let st1 : GState := { st with fs := fs1 }
  let old_files := pairs.map Prod.fst
  let new_files := pairs.map Prod.snd
  let st2 := add st1 new_files
  let st3 := rm st2 old_files
  let st4 := add st3 old_files
  pure st4

/-- Python truthiness of an optional string: `None` and `''` are falsy. -/
def pyTruthy : Option String → Bool
  | none => false
  | some s => s != ""

/-- Python `a or b` on optional strings. -/
def pyOrOpt (a b : Option String) : Option String :=
  if pyTruthy a then a else b

/-- Python `a or d` where `d` is a non-empty default string. -/
def pyOrD (a : Option String) (d : String) : String :=
  match a with
  | none => d
  | some s => if s = "" then d else s

/-- `DEFAULT_MESSAGE`, the fixed placeholder commit message. -/
def DEFAULT_MESSAGE : String :=
  "**No Message**"

/-- `DEFAULT_BRANCH`. -/
def DEFAULT_BRANCH : String :=
  "master"

/-- A Python value appearing in the commit keyword arguments. -/
inductive PyVal
  | str (s : String)
  | user (name email : Option String)
  | pynone
deriving DecidableEq, Repr

/-- The `name`/`email` dictionary built by `commit`, as a keyword value. -/
def pyUser : Option (Option String × Option String) → PyVal
  | none => .pynone
  | some u => .user u.1 u.2

/-- The author/committer/message arguments with which the storage
collaborator's commit construction ends up being invoked. -/
structure CommitInvocation where
  message : Option PyVal
  committer : Option PyVal
  author : Option PyVal
deriving DecidableEq, Repr

/-- Modelled from the spec (§4.5, §6): the keyword parameters of the storage
collaborator's commit-construction routine (`Repo.do_commit`) — message,
committer, author and its timestamp/timezone/tree/encoding options. -/
def do_commit_params : List String :=
  ["message", "committer", "author", "commit_timestamp", "commit_timezone",
   "author_timestamp", "author_timezone", "tree", "encoding"]

/-- The collaborator's commit construction called with keyword arguments:
Python call semantics reject a call supplying a keyword outside the routine's
parameter list (TypeError) before anything is constructed; otherwise the
routine receives the message/committer/author keywords it was given. -/
def do_commit (kwargs : List (String × PyVal)) :
    Except GitError CommitInvocation :=
  match kwargs.find? (fun kv => !(do_commit_params.contains kv.1)) with
  | some kv => .error (.typeError kv.1)
  | none =>
    .ok { message := (alookup kwargs "message")
        , committer := (alookup kwargs "committer")
        , author := (alookup kwargs "author") }

/-- `_commit`: defaults the message (`message or self.DEFAULT_MESSAGE`) and
calls the collaborator with the keywords exactly as the source writes them:
`message`, `author`, and the misspelled `commmiter`. -/
def commitInner (commiter author : Option (Option String × Option String))
    (message : Option String) : Except GitError CommitInvocation :=
  let message := pyOrD message DEFAULT_MESSAGE
  do_commit
    [("message", .str message), ("author", pyUser author),
     ("commmiter", pyUser commiter)]

/-- `commit`: builds the identity dictionary from `name`/`email` and passes it
to `_commit` as both `commiter` and `author`. -/
def commit (name email message : Option String) :
    Except GitError CommitInvocation :=
  let user_info := (name, email)
  commitInner (some user_info) (some user_info) message

/-- A call into the transport client (actual network traffic). -/
inductive NetCall
  | fetchPack (remotePath : String)
  | sendPack (remotePath : String)
deriving DecidableEq, Repr

/-- An opaque transport client handle returned by the resolver. -/
structure Transport where
  token : String
deriving DecidableEq, Repr

/-- Modelled from the spec (§6): the transport and storage collaborators used
by the sync orchestrator — `get_transport_and_path` (URI resolution, no
network traffic), the client's `fetch` returning the remote refs, the
client's `send_pack`, and `build_index_from_tree` materializing a working
tree and index from a commit's tree. -/
structure TransportEnv where
  get_transport_and_path :
    String → List (String × String) → Transport × String
  clientFetch : Transport → String → GState → List (String × String)
  clientSendPack :
    Transport → String →
    (List (String × String) → List (String × String)) → String
  buildIndexFromTree : GState → String → Fs × Index

/-- `_wants_branch`: defaults the branch name and returns the selector
function answering `{"refs/heads/<branch>": self.repo.refs["HEAD"]}`
regardless of the remote's current refs (the HEAD ref is read only when the
transport invokes the selector; on a repository with no commits that lookup
would fail — modelled as the empty id). -/
def wants_branch (st : GState) (branch_name : Option String) :
    List (String × String) → List (String × String) :=
  let branch := pyOrD branch_name DEFAULT_BRANCH
  fun _old => [("refs/heads/" ++ branch, st.head.getD "")]

/-- `get_client`: resolves the effective URI (`origin_uri or
self.origin_uri`), raising InvalidRemoteUrl when none is available — before
the authenticator or the transport resolver is consulted — and otherwise asks
the resolver for a client and remote path with the authenticator's keyword
arguments. -/
def get_client (env : TransportEnv) (st : GState)
    (origin_uri : Option String) : Except GitError (Transport × String) :=
  match pyOrOpt origin_uri st.originUri with
  | none => .error .invalidRemoteUrl
  | some u =>
    if u = "" then .error .invalidRemoteUrl
    else .ok (env.get_transport_and_path u st.authKwargs)

/-- `fetch`: get the client, transport-fetch the remote refs, set local HEAD
to the remote HEAD, and rebuild the working tree and index from the new
HEAD's tree.  The second component records the transport calls actually
made. -/
def fetch (env : TransportEnv) (st : GState) (origin_uri : Option String) :
    Except GitError GState × List NetCall :=
  match get_client env st origin_uri with
  | .error e => (.error e, [])
  | .ok (client, remote_path) =>
    let remote_refs := env.clientFetch client remote_path st
    match alookup remote_refs "HEAD" with
    | none => (.error .keyError, [.fetchPack remote_path])
    | some h =>
      let st1 : GState := { st with head := some h }
      let mat := env.buildIndexFromTree st1 h
      (.ok { st1 with fs := mat.1, persistedIndex := mat.2 },
       [.fetchPack remote_path])

/-- `push_to`: build the branch selector, get the client, and send the pack
with the local object store's pack generator. -/
def push_to (env : TransportEnv) (st : GState) (origin_uri : Option String)
    (branch_name : Option String) : Except GitError String × List NetCall :=
  let selector := wants_branch st branch_name
  match get_client env st origin_uri with
  | .error e => (.error e, [])
  | .ok (client, remote_path) =>
    (.ok (env.clientSendPack client remote_path selector),
     [.sendPack remote_path])

/-- `push`: `self.push_to(origin_uri, branch_name)`. -/
def push (env : TransportEnv) (st : GState)
    (origin_uri branch_name : Option String) :
    Except GitError String × List NetCall :=
  push_to env st origin_uri branch_name

/-- `pull_from`: `return self.fetch(origin_uri)` — the branch argument is
accepted and dropped. -/
def pull_from (env : TransportEnv) (st : GState) (origin_uri : Option String)
    (_branch_name : Option String) : Except GitError GState × List NetCall :=
  fetch env st origin_uri

/-- `pull`: `self.pull_from(origin_uri, branch_name)`. -/
def pull (env : TransportEnv) (st : GState)
    (origin_uri branch_name : Option String) :
    Except GitError GState × List NetCall :=
  pull_from env st origin_uri branch_name

lemma alookup_cons {α : Type} (kv : String × α) (rest : List (String × α))
    (x : String) :
    alookup (kv :: rest) x = if kv.1 = x then some kv.2 else alookup rest x :=
  rfl

lemma aerase_cons {α : Type} (kv : String × α) (rest : List (String × α))
    (p : String) :
    aerase (kv :: rest) p =
      if kv.1 = p then aerase rest p else kv :: aerase rest p :=
  rfl

lemma alookup_aerase {α : Type} (l : List (String × α)) (p x : String) :
    alookup (aerase l p) x = if x = p then none else alookup l x := by
  induction l with
  | nil => simp [alookup, aerase]
  | cons kv rest ih =>
    rw [aerase_cons]
    by_cases hkp : kv.1 = p
    · rw [if_pos hkp, ih, alookup_cons]
      by_cases hxp : x = p
      · simp [hxp]
      · rw [if_neg hxp, if_neg hxp,
          if_neg (fun h : kv.1 = x => hxp (h.symm.trans hkp))]
    · rw [if_neg hkp, alookup_cons, alookup_cons]
      by_cases hkx : kv.1 = x
      · rw [if_pos hkx, if_neg (fun hxp : x = p => hkp (hkx.trans hxp)),
          if_pos hkx]
      · rw [if_neg hkx, if_neg hkx, ih]

lemma alookup_append {α : Type} (l1 l2 : List (String × α)) (x : String) :
    alookup (l1 ++ l2) x =
      match alookup l1 x with
      | some v => some v
      | none => alookup l2 x := by
  induction l1 with
  | nil => simp [alookup]
  | cons kv rest ih =>
    by_cases hkx : kv.1 = x <;> simp [alookup, hkx, ih]

lemma alookup_ainsert {α : Type} (l : List (String × α)) (p x : String)
    (v : α) :
    alookup (ainsert l p v) x = if x = p then some v else alookup l x := by
  by_cases hxp : x = p
  · simp [ainsert, alookup_append, alookup_aerase, hxp, alookup]
  · rw [ainsert, alookup_append, alookup_aerase, if_neg hxp, if_neg hxp]
    cases h : alookup l x <;> simp [h, alookup, Ne.symm hxp]

lemma mem_akeys {α : Type} (l : List (String × α)) (x : String) :
    x ∈ akeys l ↔ (alookup l x).isSome = true := by
  induction l with
  | nil => simp [akeys, alookup]
  | cons kv rest ih =>
    have hsplit : akeys (kv :: rest) = insert kv.1 (akeys rest) := by
      simp [akeys]
    rw [hsplit, Finset.mem_insert, ih, alookup_cons]
    by_cases hkx : kv.1 = x
    · simp [hkx]
    · simp [hkx, Ne.symm hkx]

lemma alookup_isSome_iff_ne_none {α : Type} (o : Option α) :
    o.isSome = true ↔ o ≠ none := by
  cases o <;> simp

/-- Key membership after a `stage` fold: a path in the batch ends up present
exactly when it exists in the working tree (the file was staged, possibly
several times, always with the same outcome since the tree is fixed), and a
path outside the batch keeps its previous status. -/
lemma stage_fold_mem (fs : Fs) (l : List String) (idx : Index) (x : String) :
    (alookup (l.foldl (stageStep fs) idx) x).isSome = true ↔
      ((x ∈ l ∧ (alookup fs x).isSome = true) ∨
        (x ∉ l ∧ (alookup idx x).isSome = true)) := by
  induction l generalizing idx with
  | nil => simp
  | cons a rest ih =>
    rw [List.foldl_cons, ih]
    by_cases hxr : x ∈ rest
    · simp [hxr]
    · by_cases hxa : x = a
      · subst hxa
        cases hfs : alookup fs x <;>
          simp [stageStep, hfs, hxr, alookup_aerase, alookup_ainsert]
      · cases hfs : alookup fs a <;>
          simp [stageStep, hfs, hxr, hxa, alookup_aerase, alookup_ainsert,
            Ne.symm hxa]

/-- The add/stage call leaves the working tree untouched and folds
`stageStep` into the persisted index. -/
lemma add_fs (st : GState) (files : List String) :
    (add st files).fs = st.fs :=
  rfl

lemma add_persistedIndex (st : GState) (files : List String) :
    (add st files).persistedIndex =
      files.foldl (stageStep st.fs) st.persistedIndex :=
  rfl

/-- `rm` writes back the snapshot it opened first, which no deletion ever
touched: the whole call leaves the repository state unchanged. -/
lemma rm_eq (st : GState) (files : List String) (force : Bool := false) :
    rm st files force = st :=
  rfl

/-- `rm_all` clears one fresh snapshot and writes another: the repository
state is unchanged. -/
lemma rm_all_eq (st : GState) : rm_all st = st :=
  rfl

/-- Successful run of the rename loop `map(self.mv_fs, files_in_index)` over
a well-formed batch, with a key-set characterization of the resulting
working tree: a path survives iff it was present and is not an old name, or
it is one of the new names. -/
lemma renames_ok (l : List (String × String)) (fs : Fs)
    (hnodup : (l.map Prod.fst).Nodup)
    (hfs : ∀ p ∈ l, (alookup fs p.1).isSome = true)
    (hdisj : ∀ p ∈ l, ∀ q ∈ l, p.2 ≠ q.1) :
    ∃ fs1, l.foldlM mv_fs fs = .ok fs1 ∧
      ∀ x, (alookup fs1 x).isSome = true ↔
        (((alookup fs x).isSome = true ∧ x ∉ l.map Prod.fst) ∨
          x ∈ l.map Prod.snd) := by
  induction l generalizing fs with
  | nil => exact ⟨fs, rfl, by simp⟩
  | cons p rest ih =>
    have hp1 : (alookup fs p.1).isSome = true := hfs p (by simp)
    obtain ⟨m, hm⟩ := Option.isSome_iff_exists.mp hp1
    have hstep : mv_fs fs p = .ok (ainsert (aerase fs p.1) p.2 m) := by
      simp [mv_fs, hm]
    set fsr := ainsert (aerase fs p.1) p.2 m with hfsr
    have hlook : ∀ x, alookup fsr x =
        if x = p.2 then some m
        else if x = p.1 then none else alookup fs x := by
      intro x
      by_cases hx2 : x = p.2 <;> by_cases hx1 : x = p.1 <;>
        simp [hfsr, alookup_ainsert, alookup_aerase, hx1, hx2]
    have hnodup' : (rest.map Prod.fst).Nodup := (List.nodup_cons.mp hnodup).2
    have hp1notin : p.1 ∉ rest.map Prod.fst := (List.nodup_cons.mp hnodup).1
    have hfs' : ∀ q ∈ rest, (alookup fsr q.1).isSome = true := by
      intro q hq
      have hq2 : p.2 ≠ q.1 := hdisj p (by simp) q (by simp [hq])
      have hq1 : q.1 ≠ p.1 := by
        intro h
        exact hp1notin (h ▸ List.mem_map_of_mem Prod.fst hq)
      rw [hlook, if_neg (Ne.symm hq2), if_neg hq1]
      exact hfs q (by simp [hq])
    have hdisj' : ∀ a ∈ rest, ∀ b ∈ rest, a.2 ≠ b.1 := by
      intro a ha b hb
      exact hdisj a (by simp [ha]) b (by simp [hb])
    obtain ⟨fs1, hfold, hchar⟩ := ih fsr hnodup' hfs' hdisj'
    refine ⟨fs1, ?_, ?_⟩
    · rw [List.foldlM_cons, hstep]
      simpa using hfold
    · intro x
      rw [hchar x]
      have hp2rest : p.2 ∉ rest.map Prod.fst := by
        intro hmem
        obtain ⟨q, hq, hq1⟩ := List.mem_map.mp hmem
        exact hdisj p (by simp) q (by simp [hq]) hq1.symm
      by_cases hx2 : x = p.2
      · subst hx2
        simp [hlook, hp2rest]
      · by_cases hx1 : x = p.1
        · subst hx1
          simp [hlook, hx2, Ne.symm hx2]
        · simp [hlook, hx2, hx1]

/-- A sample transport environment used by concrete witnesses. -/
def envEx : TransportEnv :=
  { get_transport_and_path := fun u _ => (⟨u⟩, u)
  , clientFetch := fun _ _ _ => [("HEAD", "deadbeef")]
  , clientSendPack := fun _ _ _ => "ok"
  , buildIndexFromTree := fun st _ => (st.fs, st.persistedIndex) }

/-- A sample repository state with one tracked file. -/
def stEx : GState :=
  { fs := [("a.txt", 10)]
  , persistedIndex := [("a.txt", ⟨5⟩)]
  , head := some "c0"
  , commitTime := fun _ => 4
  , originUri := none
  , authKwargs := []
  , ignore := fun _ => false }

/-- C9: for every transport environment, repository state, origin URI and
branch argument, `pull` is exactly `fetch` on that URI — the branch argument
has no effect on the result or the resulting repository state. -/
theorem pull_is_fetch (env : TransportEnv) (st : GState)
    (origin_uri branch_name : Option String) :
    pull env st origin_uri branch_name = fetch env st origin_uri :=
  rfl

/-- C10: every `index` access opens a fresh snapshot of the persisted staging
index, so mutating one snapshot is not observable through a later access or
through the persisted index — `rm` and `rm_all`, which delete from / clear
per-access snapshots distinct from the snapshot they `write()`, leave the
persisted index unchanged — while writing the mutated snapshot itself does
persist the mutation. -/
theorem index_snapshots_independent (st : GState) (files : List String)
    (f : String) :
    openIndex (rm st files) = openIndex st ∧
      (rm st files).persistedIndex = st.persistedIndex ∧
      openIndex (rm_all st) = openIndex st ∧
      (rm_all st).persistedIndex = st.persistedIndex ∧
      (writeIndex st (aerase (openIndex st) f)).persistedIndex =
        aerase st.persistedIndex f :=
  ⟨rfl, rfl, rfl, rfl, rfl⟩

/-- C8: a sync operation (`push`, `pull`, `fetch`) invoked without an origin
URI argument on a handle whose bound origin URI is also unavailable fails
with InvalidRemoteUrl, and its transport-call trace is empty: no network
call is attempted. -/
theorem sync_without_origin_fails (env : TransportEnv) (st : GState)
    (origin_uri branch_name : Option String)
    (harg : pyTruthy origin_uri = false)
    (hbound : pyTruthy st.originUri = false) :
    push env st origin_uri branch_name = (.error .invalidRemoteUrl, []) ∧
      pull env st origin_uri branch_name = (.error .invalidRemoteUrl, []) ∧
      fetch env st origin_uri = (.error .invalidRemoteUrl, []) := by
  have hclient : get_client env st origin_uri = .error .invalidRemoteUrl := by
    rw [get_client, pyOrOpt, harg, if_neg (Bool.false_ne_true)]
    cases hb : st.originUri with
    | none => rfl
    | some s =>
      rw [hb] at hbound
      have : s = "" := by simpa [pyTruthy] using hbound
      simp [this]
  refine ⟨?_, ?_, ?_⟩
  · rw [push, push_to, hclient]
  · rw [pull, pull_from, fetch, hclient]
  · rw [fetch, hclient]

/-- Witness for C8 at a concrete environment and state. -/
theorem sync_without_origin_fails_witness :
    pyTruthy none = false ∧ pyTruthy stEx.originUri = false ∧
      (push envEx stEx none none = (.error .invalidRemoteUrl, []) ∧
        pull envEx stEx none none = (.error .invalidRemoteUrl, []) ∧
        fetch envEx stEx none = (.error .invalidRemoteUrl, [])) :=
  ⟨by decide, by decide,
    sync_without_origin_fails envEx stEx none none (by decide) (by decide)⟩

/-- C3: on a repository with no commits, the modification queries surface the
NoCommitsYet failure of the last-commit lookup instead of returning an empty
set. -/
theorem no_commits_queries_fail (st : GState) (hhead : st.head = none) :
    modified_staged_files st = .error .noCommitsYet ∧
      modified_unstaged_files st = .error .noCommitsYet ∧
      modified_files st = .error .noCommitsYet ∧
      ∀ S, modified_staged_files st ≠ .ok S := by
  have hlast : last_commit st = .error .noCommitsYet := by
    rw [last_commit, hhead]
  have hs : modified_staged_files st = .error .noCommitsYet := by
    rw [modified_staged_files, hlast]; rfl
  have hu : modified_unstaged_files st = .error .noCommitsYet := by
    rw [modified_unstaged_files, hlast]; rfl
  refine ⟨hs, hu, ?_, ?_⟩
  · rw [modified_files, hs]; rfl
  · intro S hS
    rw [hs] at hS
    exact Except.noConfusion hS

/-- A sample repository state with no commits. -/
def stNoCommit : GState :=
  { fs := [("a.txt", 10)]
  , persistedIndex := [("a.txt", ⟨5⟩)]
  , head := none
  , commitTime := fun _ => 0
  , originUri := none
  , authKwargs := []
  , ignore := fun _ => false }

/-- Witness for C3 at a concrete commit-less repository. -/
theorem no_commits_queries_fail_witness :
    stNoCommit.head = none ∧
      (modified_staged_files stNoCommit = .error .noCommitsYet ∧
        modified_unstaged_files stNoCommit = .error .noCommitsYet ∧
        modified_files stNoCommit = .error .noCommitsYet ∧
        ∀ S, modified_staged_files stNoCommit ≠ .ok S) :=
  ⟨by decide, no_commits_queries_fail stNoCommit (by decide)⟩

lemma except_bind_ok {ε α β : Type} (a : α) (f : α → Except ε β) :
    (Except.ok a >>= f) = f a :=
  rfl

/-- C5: the derived file-state sets satisfy the exact set algebra —
`trackable = raw − ignored`, `untracked = trackable − tracked`, and on any
state where the modification queries succeed (a commit exists and each
tracked file can be stat'ed), `modified = staged ∪ unstaged` with both
subsets of `tracked`. -/
theorem fileset_algebra (st : GState) (sha : String)
    (hsha : st.head = some sha)
    (hstat : ∀ f ∈ tracked_files st, (alookup st.fs f).isSome = true) :
    trackable_files st = raw_files st \ ignored_files st ∧
      untracked_files st = trackable_files st \ tracked_files st ∧
      ∃ s u, modified_staged_files st = .ok s ∧
        modified_unstaged_files st = .ok u ∧
        modified_files st = .ok (s ∪ u) ∧
        s ⊆ tracked_files st ∧ u ⊆ tracked_files st := by
  have hlast : last_commit st = .ok (st.commitTime sha) := by
    rw [last_commit, hsha]
  have hs : modified_staged_files st =
      .ok ((tracked_files st).filter
        (fun f => entryNewer (openIndex st) (st.commitTime sha) f)) := by
    rw [modified_staged_files, hlast, except_bind_ok]
    rfl
  have hu : modified_unstaged_files st =
      .ok ((tracked_files st).filter
        (fun f => statNewer st.fs (st.commitTime sha) f)) := by
    rw [modified_unstaged_files, hlast, except_bind_ok, if_pos hstat]
    rfl
  refine ⟨rfl, rfl, _, _, hs, hu, ?_, Finset.filter_subset _ _,
    Finset.filter_subset _ _⟩
  rw [modified_files, hs, except_bind_ok, hu, except_bind_ok]
  rfl

/-- Witness for C5 at a concrete repository state. -/
theorem fileset_algebra_witness :
    stEx.head = some "c0" ∧
      (∀ f ∈ tracked_files stEx, (alookup stEx.fs f).isSome = true) ∧
      (trackable_files stEx = raw_files stEx \ ignored_files stEx ∧
        untracked_files stEx = trackable_files stEx \ tracked_files stEx ∧
        ∃ s u, modified_staged_files stEx = .ok s ∧
          modified_unstaged_files stEx = .ok u ∧
          modified_files stEx = .ok (s ∪ u) ∧
          s ⊆ tracked_files stEx ∧ u ⊆ tracked_files stEx) :=
  ⟨by decide, by decide, fileset_algebra stEx "c0" (by decide) (by decide)⟩

/-- A repository state sitting exactly on the modification boundary: the
index entry is strictly newer than the commit, the working-tree mtime is
exactly the commit time. -/
def stBoundary : GState :=
  { fs := [("a.txt", 5)]
  , persistedIndex := [("a.txt", ⟨6⟩)]
  , head := some "c0"
  , commitTime := fun _ => 5
  , originUri := none
  , authKwargs := []
  , ignore := fun _ => false }

/-- C6: the modification test is a strict greater-than comparison — a tracked
path is modified-staged iff its index entry time is strictly greater than the
last commit's time, and (when the unstaged query succeeds) modified-unstaged
iff its working-tree mtime is strictly greater; a timestamp exactly equal to
the commit's is not modified. -/
theorem modified_boundary (st : GState) (sha f : String) (e : IndexEntry)
    (hsha : st.head = some sha)
    (hentry : alookup (openIndex st) f = some e) :
    (∀ S, modified_staged_files st = .ok S →
      (f ∈ S ↔ e.mtimeSec > st.commitTime sha)) ∧
      (∀ m, alookup st.fs f = some m →
        ∀ U, modified_unstaged_files st = .ok U →
          (f ∈ U ↔ m > st.commitTime sha)) := by
  have hlast : last_commit st = .ok (st.commitTime sha) := by
    rw [last_commit, hsha]
  have htrk : f ∈ tracked_files st := by
    rw [tracked_files, mem_akeys, hentry]
    rfl
  constructor
  · intro S hS
    rw [modified_staged_files, hlast, except_bind_ok] at hS
    rw [← Except.ok.inj hS, Finset.mem_filter]
    simp [entryNewer, hentry, htrk]
  · intro m hm U hU
    rw [modified_unstaged_files, hlast, except_bind_ok] at hU
    by_cases hall : ∀ g ∈ tracked_files st, (alookup st.fs g).isSome = true
    · rw [if_pos hall] at hU
      rw [← Except.ok.inj hU, Finset.mem_filter]
      simp [statNewer, hm, htrk]
    · rw [if_neg hall] at hU
      exact absurd hU (fun h => Except.noConfusion h)

/-- Witness for C6 at the boundary state: entry time 6 > commit time 5 is
modified-staged; working-tree mtime 5 = commit time 5 is not
modified-unstaged. -/
theorem modified_boundary_witness :
    stBoundary.head = some "c0" ∧
      alookup (openIndex stBoundary) "a.txt" = some ⟨6⟩ ∧
      ((∀ S, modified_staged_files stBoundary = .ok S →
          ("a.txt" ∈ S ↔ (6 : Int) > stBoundary.commitTime "c0")) ∧
        (∀ m, alookup stBoundary.fs "a.txt" = some m →
          ∀ U, modified_unstaged_files stBoundary = .ok U →
            ("a.txt" ∈ U ↔ m > stBoundary.commitTime "c0"))) :=
  ⟨by decide, by decide,
    modified_boundary stBoundary "c0" "a.txt" ⟨6⟩ (by decide) (by decide)⟩

/-- A repository state with a tracked file deleted from the working tree. -/
def stGone : GState :=
  { fs := []
  , persistedIndex := [("gone.txt", ⟨7⟩)]
  , head := some "c0"
  , commitTime := fun _ => 5
  , originUri := none
  , authKwargs := []
  , ignore := fun _ => false }

/-- C7 counterexample: for a file present in the index but deleted from the
working tree, the modified-unstaged query does not classify the file as
modified — it fails with the propagated stat error, returning no set at
all. -/
theorem deleted_file_query_raises :
    "gone.txt" ∈ tracked_files stGone ∧
      alookup stGone.fs "gone.txt" = none ∧
      modified_unstaged_files stGone = .error .osError ∧
      ∀ U, modified_unstaged_files stGone ≠ .ok U := by
  have herr : modified_unstaged_files stGone = .error .osError := by decide
  refine ⟨by decide, by decide, herr, ?_⟩
  intro U hU
  rw [herr] at hU
  exact Except.noConfusion hU

/-- C7 as amended: a file present in the index but deleted from the working
tree is classified tracked (not untracked), and the modified-unstaged query
fails with the propagated stat error (OSError) rather than treating the file
as modified. -/
theorem deleted_file_tracked_query_fails (st : GState) (f sha : String)
    (hsha : st.head = some sha)
    (hidx : (alookup (openIndex st) f).isSome = true)
    (hfs : alookup st.fs f = none) :
    f ∈ tracked_files st ∧ f ∉ untracked_files st ∧
      modified_unstaged_files st = .error .osError := by
  have htrk : f ∈ tracked_files st := by
    rw [tracked_files, mem_akeys]
    exact hidx
  refine ⟨htrk, ?_, ?_⟩
  · rw [untracked_files, Finset.mem_sdiff]
    simp [htrk]
  · have hlast : last_commit st = .ok (st.commitTime sha) := by
      rw [last_commit, hsha]
    have hnall : ¬ ∀ g ∈ tracked_files st, (alookup st.fs g).isSome = true := by
      intro hall
      have h2 := hall f htrk
      rw [hfs] at h2
      simp at h2
    rw [modified_unstaged_files, hlast, except_bind_ok, if_neg hnall]
    rfl

/-- Witness for the amended C7 at a concrete state. -/
theorem deleted_file_tracked_query_fails_witness :
    stGone.head = some "c0" ∧
      (alookup (openIndex stGone) "gone.txt").isSome = true ∧
      alookup stGone.fs "gone.txt" = none ∧
      ("gone.txt" ∈ tracked_files stGone ∧
        "gone.txt" ∉ untracked_files stGone ∧
        modified_unstaged_files stGone = .error .osError) :=
  ⟨by decide, by decide, by decide,
    deleted_file_tracked_query_fails stGone "gone.txt" "c0"
      (by decide) (by decide) (by decide)⟩

/-- C4 (code bug): at the failing input `commit(name, email, message)`, the
identity dictionary is handed to the collaborator under the misspelled
keyword `commmiter`, which `do_commit` does not accept, so the call fails
with TypeError before any commit is constructed — the identity never reaches
the committer field. -/
theorem commit_commmiter_typo :
    commit (some "John Doe") (some "john@example.com") (some "fix parser") =
      .error (.typeError "commmiter") := by
  decide

/-- The sequencing of `mv`, written out: rename loop, then
`add(new_files)`, `rm(old_files)`, `add(old_files)`. -/
lemma mv_eq (st : GState) (files_pair : List (String × String)) :
    mv st files_pair =
      (files_in_index st files_pair).foldlM mv_fs st.fs >>= fun fs1 =>
        pure (add (rm (add { st with fs := fs1 }
            ((files_in_index st files_pair).map Prod.snd))
          ((files_in_index st files_pair).map Prod.fst))
          ((files_in_index st files_pair).map Prod.fst)) :=
  rfl

/-- C1: a well-formed rename batch — distinct old names, no new name equal to
any old name, each renamed file present on disk — applied to a repository
whose index contains the old path of a pair leaves the pair's new path
tracked, its old path untracked, and its old path absent from the working
tree. -/
theorem mv_renames_tracking (st : GState)
    (files_pair : List (String × String)) (o n : String)
    (hmem : (o, n) ∈ files_pair)
    (hidx : (alookup (openIndex st) o).isSome = true)
    (hnodup : ((files_in_index st files_pair).map Prod.fst).Nodup)
    (hfs : ∀ p ∈ files_in_index st files_pair,
      (alookup st.fs p.1).isSome = true)
    (hdisj : ∀ p ∈ files_in_index st files_pair,
      ∀ q ∈ files_in_index st files_pair, p.2 ≠ q.1) :
    ∃ st4, mv st files_pair = .ok st4 ∧
      n ∈ tracked_files st4 ∧ o ∉ tracked_files st4 ∧
      alookup st4.fs o = none := by
  set pairs := files_in_index st files_pair with hpairs
  have hin : (o, n) ∈ pairs := by
    rw [hpairs, files_in_index]
    exact List.mem_filter.mpr ⟨hmem, hidx⟩
  obtain ⟨fs1, hfold, hchar⟩ := renames_ok pairs st.fs hnodup hfs hdisj
  have ho_old : o ∈ pairs.map Prod.fst := List.mem_map_of_mem Prod.fst hin
  have hn_new : n ∈ pairs.map Prod.snd := List.mem_map_of_mem Prod.snd hin
  have hn_not_old : n ∉ pairs.map Prod.fst := by
    intro hmem1
    obtain ⟨q, hq, hq1⟩ := List.mem_map.mp hmem1
    exact hdisj (o, n) hin q hq hq1.symm
  have ho_not_new : o ∉ pairs.map Prod.snd := by
    intro hmem2
    obtain ⟨q, hq, hq2⟩ := List.mem_map.mp hmem2
    exact hdisj q hq (o, n) hin hq2
  have ho_fs1 : ¬ (alookup fs1 o).isSome = true := by
    rw [hchar o]
    rintro (⟨_, hno⟩ | hnew)
    · exact hno ho_old
    · exact ho_not_new hnew
  refine ⟨add (rm (add { st with fs := fs1 } (pairs.map Prod.snd))
      (pairs.map Prod.fst)) (pairs.map Prod.fst), ?_, ?_, ?_, ?_⟩
  · rw [mv_eq, ← hpairs, hfold, except_bind_ok]
    rfl
  · rw [rm_eq, tracked_files, openIndex, mem_akeys, add_persistedIndex,
      add_persistedIndex]
    dsimp only
    rw [stage_fold_mem, stage_fold_mem]
    exact Or.inr ⟨hn_not_old, Or.inl ⟨hn_new, (hchar n).mpr (Or.inr hn_new)⟩⟩
  · rw [rm_eq, tracked_files, openIndex, mem_akeys, add_persistedIndex,
      add_persistedIndex]
    dsimp only
    rw [stage_fold_mem]
    rintro (⟨_, hsome⟩ | ⟨hnoo, _⟩)
    · exact ho_fs1 hsome
    · exact hnoo ho_old
  · rw [rm_eq, add_fs, add_fs]
    exact Option.not_isSome_iff_eq_none.mp ho_fs1

/-- Witness for C1: the spec's own scenario, `rename([("a.txt","b.txt")])` on
an index containing `a.txt`. -/
theorem mv_renames_tracking_witness :
    ("a.txt", "b.txt") ∈ [("a.txt", "b.txt")] ∧
      (alookup (openIndex stEx) "a.txt").isSome = true ∧
      ∃ st4, mv stEx [("a.txt", "b.txt")] = .ok st4 ∧
        "b.txt" ∈ tracked_files st4 ∧ "a.txt" ∉ tracked_files st4 ∧
        alookup st4.fs "a.txt" = none :=
  ⟨by decide, by decide,
    mv_renames_tracking stEx [("a.txt", "b.txt")] "a.txt" "b.txt"
      (by decide) (by decide) (by decide) (by decide) (by decide)⟩

/-- C2 (code bug): at the failing input `rm(["a.txt"])` on a repository whose
persisted index contains exactly `a.txt`, the persisted index afterward still
contains `a.txt` — the deletions were applied to discarded per-access
snapshots, and the snapshot that was written back is the untouched one. -/
theorem rm_does_not_remove :
    (rm stEx ["a.txt"]).persistedIndex = stEx.persistedIndex ∧
      tracked_files (rm stEx ["a.txt"]) = {"a.txt"} := by
  constructor
  · rfl
  · decide

end Gittle
